import Mathlib

/-!
Shallow embedding of `src/write_stage.rs` (the TPU write stage).

The stage's single worker routine `write_and_send_entries` performs one
commit round: a blocking receive with a 1 s timeout, a non-blocking burst
drain into a local pending queue `ventries`, then a per-batch loop that
pops batches from the *tail* of `ventries` (`ventries.pop().unwrap()`),
merges the batch's votes into the cluster directory, writes the batch to
the ledger, and forwards non-empty batches on the downstream channel.
Errors from the ledger write or the downstream send propagate with `?`.

We embed the routine as a pure function from the round's inputs (the
outcome of the blocking receive, the batches available to `try_recv`, and
failure oracles for the ledger write and the downstream send) to the list
of observable side effects (an event trace) together with the error the
routine returns, if any.  The worker loop spawned by `WriteStage::new` is
embedded as a step function on a state of counters, classifying the
round's error exactly as the `match` in the source does.
-/

/-- A transaction, identified abstractly. -/
abbrev Tx := Nat

/-- A vote embedded in an entry, identified abstractly. -/
abbrev Vote := Nat

/-- An `Entry`: an ordered record carrying transactions and embedded votes. -/
structure Entry where
  transactions : List Tx
  votes : List Vote
deriving DecidableEq, Repr

/-- A batch: one `Vec<Entry>` received from the upstream channel. -/
abbrev Batch := List Entry

/-- `Block::votes()` on a slice of entries: all embedded votes, in entry order. -/
def Batch.blockVotes (b : Batch) : List Vote :=
  (b.map Entry.votes).flatten

/-- The observable side effects of one commit round, in program order:
`insertVotes` is `crdt.write().unwrap().insert_votes(&votes)` (the write
lock is held for this event alone and released before the ledger write),
`writeEntries` is the `ledger_writer.write_entries(entries.clone())` call,
and `sendBatch` is `entry_sender.send(entries)`. -/
inductive Event where
  | insertVotes (votes : List Vote)
  | writeEntries (b : Batch)
  | sendBatch (b : Batch)
deriving DecidableEq, Repr

/-- Outcome of `entry_receiver.recv_timeout(Duration::new(1, 0))`. -/
inductive RecvResult where
  | ok (b : Batch)
  | timeout
  | disconnected
deriving DecidableEq, Repr

/-- The errors `write_and_send_entries` can return, following the
source's `Error` classification: `RecvTimeoutError(Timeout)`,
`RecvTimeoutError(Disconnected)`, or the ledger-write / downstream-send
failures that the worker loop treats as "other". -/
inductive WsError where
  | recvTimeout
  | recvDisconnected
  | writeFail
  | sendFail
deriving DecidableEq, Repr

/-- One iteration of the per-batch loop body for batch `b`:
`insert_votes` on the batch's votes, then `write_entries(entries)?`
(failure oracle `writeOk`), then, when the batch is non-empty,
`entry_sender.send(entries)?` (failure oracle `sendOk`).
Returns the events the iteration emits and the error it propagates. -/
def processBatch (writeOk sendOk : Batch → Bool) (b : Batch) :
    List Event × Option WsError :=
  if writeOk b then
    if b.isEmpty then
      ([Event.insertVotes b.blockVotes, Event.writeEntries b], none)
    else if sendOk b then
      ([Event.insertVotes b.blockVotes, Event.writeEntries b,
        Event.sendBatch b], none)
    else
      ([Event.insertVotes b.blockVotes, Event.writeEntries b],
        some WsError.sendFail)
  else
    ([Event.insertVotes b.blockVotes, Event.writeEntries b],
      some WsError.writeFail)

/-- The per-batch loop, given the batches in the order the source pops
them.  An error returned by a batch stops the loop at once (`?` in the
source): later batches contribute no events. -/
def processInOrder (writeOk sendOk : Batch → Bool) :
    List Batch → List Event × Option WsError
  | [] => ([], none)
  | b :: rest =>
    match processBatch writeOk sendOk b with
    | (evs, some e) => (evs, some e)
    | (evs, none) =>
      let (evs2, err2) := processInOrder writeOk sendOk rest
      (evs ++ evs2, err2)

/-- The source's loop `for _ in 0..ventries.len() { let entries =
ventries.pop().unwrap(); ... }` pops from the *tail* of the pending
queue, so the batches are handled in the reverse of arrival order. -/
def processPending (writeOk sendOk : Batch → Bool) (ventries : List Batch) :
    List Event × Option WsError :=
  processInOrder writeOk sendOk ventries.reverse

/-- `WriteStage::write_and_send_entries`: one commit round.  `rt` is the
outcome of the blocking `recv_timeout`; `more` are the batches the
non-blocking `try_recv` loop yields afterwards, in arrival order.  The
pending queue `ventries` starts empty, receives the first batch, then
each drained batch, and is then consumed tail-first by `processPending`. -/
def write_and_send_entries (writeOk sendOk : Batch → Bool)
    (rt : RecvResult) (more : List Batch) : List Event × Option WsError :=
  match rt with
  | RecvResult.timeout => ([], some WsError.recvTimeout)
  | RecvResult.disconnected => ([], some WsError.recvDisconnected)
  | RecvResult.ok first => processPending writeOk sendOk (first :: more)

/-- The batches written to the ledger, in the order of the
`write_entries` calls in a trace. -/
def writesOf : List Event → List Batch
  | [] => []
  | Event.writeEntries b :: es => b :: writesOf es
  | _ :: es => writesOf es

/-- The batches forwarded downstream, in the order of the `send` calls
in a trace. -/
def sendsOf : List Event → List Batch
  | [] => []
  | Event.sendBatch b :: es => b :: sendsOf es
  | _ :: es => sendsOf es

/-- State of the worker loop spawned by `WriteStage::new`: the two error
counters the source bumps, and the number of `send_leader_vote` calls. -/
structure LoopState where
  writeErrCount : Nat
  voteErrCount : Nat
  voteCalls : Nat
deriving DecidableEq, Repr

/-- The nondeterministic inputs of one iteration of the worker loop: the
inputs of the commit round, and whether `send_leader_vote` succeeds. -/
structure IterInput where
  writeOk : Batch → Bool
  sendOk : Batch → Bool
  rt : RecvResult
  more : List Batch
  voteOk : Bool

/-- The tail of a loop iteration: `send_leader_vote(...)` is invoked; on
failure the `write_stage-leader_vote-error` counter is bumped and the
error logged; the loop always continues. -/
def voteStep (s : LoopState) (voteOk : Bool) : LoopState × Bool :=
  ({ s with
      voteCalls := s.voteCalls + 1,
      voteErrCount := s.voteErrCount + (if voteOk then 0 else 1) }, false)

/-- One iteration of the worker loop in `WriteStage::new`: run
`write_and_send_entries`, classify its error (`Disconnected` breaks the
loop before `send_leader_vote`; `Timeout` is ignored; anything else bumps
`write_stage-write_and_send_entries-error` and is logged), then invoke
`send_leader_vote`.  The `Bool` is true when the iteration breaks. -/
def loopIter (s : LoopState) (inp : IterInput) : LoopState × Bool :=
  match (write_and_send_entries inp.writeOk inp.sendOk inp.rt inp.more).2 with
  | some WsError.recvDisconnected => (s, true)
  | some WsError.recvTimeout => voteStep s inp.voteOk
  | some WsError.writeFail =>
    voteStep { s with writeErrCount := s.writeErrCount + 1 } inp.voteOk
  | some WsError.sendFail =>
    voteStep { s with writeErrCount := s.writeErrCount + 1 } inp.voteOk
  | none => voteStep s inp.voteOk

/-- The events one batch contributes in a fully successful round. -/
def batchEvents (b : Batch) : List Event :=
  [Event.insertVotes b.blockVotes, Event.writeEntries b] ++
    (if b.isEmpty then [] else [Event.sendBatch b])

/-! ### Basic lemmas about the round -/

theorem processBatch_all_ok {writeOk sendOk : Batch → Bool} {b : Batch}
    (hw : writeOk b = true) (hs : sendOk b = true) :
    processBatch writeOk sendOk b = (batchEvents b, none) := by
  by_cases he : b.isEmpty <;>
    simp [processBatch, batchEvents, hw, hs, he]

theorem processInOrder_cons_ok {writeOk sendOk : Batch → Bool} {b : Batch}
    (rest : List Batch) (h : (processBatch writeOk sendOk b).2 = none) :
    processInOrder writeOk sendOk (b :: rest) =
      ((processBatch writeOk sendOk b).1 ++
        (processInOrder writeOk sendOk rest).1,
       (processInOrder writeOk sendOk rest).2) := by
  rcases hpb : processBatch writeOk sendOk b with ⟨evs, err⟩
  simp only [hpb] at h
  subst h
  simp [processInOrder, hpb]

theorem processInOrder_all_ok {writeOk sendOk : Batch → Bool}
    {l : List Batch} (h : ∀ b ∈ l, writeOk b = true ∧ sendOk b = true) :
    processInOrder writeOk sendOk l = ((l.map batchEvents).flatten, none) := by
  induction l with
  | nil => simp [processInOrder]
  | cons b rest ih =>
    have hb := h b (by simp)
    have hpb := processBatch_all_ok hb.1 hb.2
    have hrest := ih (fun x hx => h x (by simp [hx]))
    simp [processInOrder, hpb, hrest]

theorem writesOf_append (l1 l2 : List Event) :
    writesOf (l1 ++ l2) = writesOf l1 ++ writesOf l2 := by
  induction l1 with
  | nil => simp [writesOf]
  | cons e rest ih => cases e <;> simp [writesOf, ih]

theorem sendsOf_append (l1 l2 : List Event) :
    sendsOf (l1 ++ l2) = sendsOf l1 ++ sendsOf l2 := by
  induction l1 with
  | nil => simp [sendsOf]
  | cons e rest ih => cases e <;> simp [sendsOf, ih]

theorem writesOf_flatten (l : List Batch) :
    writesOf ((l.map batchEvents).flatten) = l := by
  induction l with
  | nil => simp [writesOf]
  | cons b rest ih =>
    by_cases he : b.isEmpty <;>
      simp [batchEvents, he, writesOf_append, writesOf, ih]

theorem sendsOf_flatten (l : List Batch) :
    sendsOf ((l.map batchEvents).flatten) =
      l.filter (fun b => !b.isEmpty) := by
  induction l with
  | nil => simp [sendsOf]
  | cons b rest ih =>
    by_cases he : b.isEmpty <;>
      simp [batchEvents, he, sendsOf_append, sendsOf, ih, List.filter]

/-- In a round with no write or send failure, the trace of
`write_and_send_entries` is the concatenation of the per-batch event
blocks, taken over the pending queue in reverse arrival order. -/
theorem write_and_send_entries_all_ok {writeOk sendOk : Batch → Bool}
    (first : Batch) (more : List Batch)
    (h : ∀ b ∈ first :: more, writeOk b = true ∧ sendOk b = true) :
    write_and_send_entries writeOk sendOk (RecvResult.ok first) more =
      (((first :: more).reverse.map batchEvents).flatten, none) := by
  have h' : ∀ b ∈ (first :: more).reverse,
      writeOk b = true ∧ sendOk b = true := by
    intro b hb
    exact h b (List.mem_reverse.mp hb)
  simp only [write_and_send_entries, processPending]
  rw [processInOrder_all_ok h']

/-! ### C1: intra-round ordering -/

/-- A concrete non-empty batch used in counterexamples and witnesses. -/
def sampleB1 : Batch := [Entry.mk [1] [10]]

/-- A second concrete non-empty batch, distinct from `sampleB1`. -/
def sampleB2 : Batch := [Entry.mk [2] [20]]

/-- C1 (counterexample): in a round that drains `sampleB1` then `sampleB2`
in that arrival order with every write and send succeeding, it is *not*
the case that the ledger writes and the downstream sends happen in
first-received order `[sampleB1, sampleB2]` — the code pops the pending
queue from its tail and handles `sampleB2` first. -/
theorem C1_counterexample :
    ¬ (writesOf (write_and_send_entries (fun _ => true) (fun _ => true)
          (RecvResult.ok sampleB1) [sampleB2]).1 = [sampleB1, sampleB2] ∧
       sendsOf (write_and_send_entries (fun _ => true) (fun _ => true)
          (RecvResult.ok sampleB1) [sampleB2]).1 = [sampleB1, sampleB2]) := by
  decide

/-- C1 (amended): for every round in which `write_and_send_entries` drains
batches B1, ..., Bn in that arrival order and every ledger write and
downstream send succeeds, the batches are committed and forwarded in
*reverse* arrival order: `write_entries` is called for Bn first and B1
last, and the downstream channel receives the non-empty batches in that
same reversed order. -/
theorem C1_reverse_order {writeOk sendOk : Batch → Bool}
    (first : Batch) (more : List Batch)
    (h : ∀ b ∈ first :: more, writeOk b = true ∧ sendOk b = true) :
    writesOf (write_and_send_entries writeOk sendOk
        (RecvResult.ok first) more).1 = (first :: more).reverse ∧
    sendsOf (write_and_send_entries writeOk sendOk
        (RecvResult.ok first) more).1 =
      ((first :: more).reverse).filter (fun b => !b.isEmpty) := by
  rw [write_and_send_entries_all_ok first more h]
  exact ⟨writesOf_flatten _, sendsOf_flatten _⟩

/-- C1 (witness): the amended ordering theorem evaluated on the concrete
round that drains `sampleB1` then `sampleB2`. -/
theorem C1_reverse_order_witness :
    writesOf (write_and_send_entries (fun _ => true) (fun _ => true)
        (RecvResult.ok sampleB1) [sampleB2]).1 =
      ([sampleB1, sampleB2] : List Batch).reverse ∧
    sendsOf (write_and_send_entries (fun _ => true) (fun _ => true)
        (RecvResult.ok sampleB1) [sampleB2]).1 =
      (([sampleB1, sampleB2] : List Batch).reverse).filter
        (fun b => !b.isEmpty) :=
  C1_reverse_order sampleB1 [sampleB2] (fun _ _ => ⟨rfl, rfl⟩)

/-! ### C7: timeout / disconnect leave all state untouched -/

/-- C7: when the blocking `recv_timeout` yields nothing within the 1 s
window, `write_and_send_entries` returns the `Timeout` error with an
empty trace — no directory merge, no ledger write, no downstream forward
— and likewise a `Disconnected` receive yields the `Disconnected` error
with an empty trace. -/
theorem C7_recv_failure_atomic (writeOk sendOk : Batch → Bool)
    (more : List Batch) :
    write_and_send_entries writeOk sendOk RecvResult.timeout more =
      ([], some WsError.recvTimeout) ∧
    write_and_send_entries writeOk sendOk RecvResult.disconnected more =
      ([], some WsError.recvDisconnected) :=
  ⟨rfl, rfl⟩

/-! ### C2: durability before forwarding -/

/-- A trace in which every downstream send of a batch is preceded by a
successful ledger write of that same batch. -/
def sendAfterWrite (writeOk : Batch → Bool) (tr : List Event) : Prop :=
  ∀ l1 b l2, tr = l1 ++ Event.sendBatch b :: l2 →
    Event.writeEntries b ∈ l1 ∧ writeOk b = true

theorem sendAfterWrite_append {writeOk : Batch → Bool} {t1 t2 : List Event}
    (h1 : sendAfterWrite writeOk t1) (h2 : sendAfterWrite writeOk t2) :
    sendAfterWrite writeOk (t1 ++ t2) := by
  intro l1 b l2 heq
  rcases List.append_eq_append_iff.mp heq with ⟨m, hm1, hm2⟩ | ⟨m, hm1, hm2⟩
  · obtain ⟨hmem, hw⟩ := h2 m b l2 hm2
    refine ⟨?_, hw⟩
    rw [hm1]
    exact List.mem_append_right t1 hmem
  · cases m with
    | nil =>
      obtain ⟨hmem, _⟩ := h2 [] b l2 (by simpa using hm2.symm)
      exact absurd hmem (List.not_mem_nil _)
    | cons x m =>
      have hx : Event.sendBatch b = x ∧ l2 = m ++ t2 := by
        have := hm2
        simp only [List.cons_append, List.cons.injEq] at this
        exact this
      obtain ⟨hmem, hw⟩ := h1 l1 b m (by rw [hm1, ← hx.1])
      exact ⟨hmem, hw⟩

/-- A two-event block `[insert_votes, write_entries]` contains no send. -/
theorem no_send_in_pair {v : List Vote} {a b : Batch}
    {l1 l2 : List Event}
    (heq : ([Event.insertVotes v, Event.writeEntries a] : List Event) =
      l1 ++ Event.sendBatch b :: l2) : False := by
  have hmem : Event.sendBatch b ∈
      ([Event.insertVotes v, Event.writeEntries a] : List Event) := by
    rw [heq]
    simp
  simp at hmem

theorem sendAfterWrite_processBatch (writeOk sendOk : Batch → Bool)
    (a : Batch) :
    sendAfterWrite writeOk (processBatch writeOk sendOk a).1 := by
  intro l1 b l2 heq
  by_cases hw : writeOk a
  · by_cases he : a.isEmpty
    · rw [processBatch] at heq
      simp only [hw, he, if_true] at heq
      exact (no_send_in_pair heq).elim
    · by_cases hs : sendOk a
      · rw [processBatch] at heq
        simp only [hw, he, hs, if_true, Bool.false_eq_true, if_false] at heq
        rcases l1 with _ | ⟨x, _ | ⟨y, _ | ⟨z, t⟩⟩⟩
        · simp at heq
        · simp only [List.cons_append, List.nil_append,
            List.cons.injEq] at heq
          exact absurd heq.2.1 (by simp)
        · simp only [List.cons_append, List.nil_append,
            List.cons.injEq] at heq
          obtain ⟨h1, h2, h3, h4⟩ := heq
          injection h3 with hab
          subst hab
          rw [h2]
          exact ⟨by simp, hw⟩
        · simp only [List.cons_append, List.nil_append,
            List.cons.injEq] at heq
          have := heq.2.2.2
          simp at this
      · rw [processBatch] at heq
        simp only [hw, he, hs, if_true, Bool.false_eq_true, if_false] at heq
        exact (no_send_in_pair heq).elim
  · rw [processBatch] at heq
    simp only [hw, Bool.false_eq_true, if_false] at heq
    exact (no_send_in_pair heq).elim

theorem sendAfterWrite_processInOrder (writeOk sendOk : Batch → Bool)
    (l : List Batch) :
    sendAfterWrite writeOk (processInOrder writeOk sendOk l).1 := by
  induction l with
  | nil =>
    intro l1 b l2 heq
    simp [processInOrder] at heq
  | cons a rest ih =>
    rcases hpb : processBatch writeOk sendOk a with ⟨evs, err⟩
    have hgood : sendAfterWrite writeOk evs := by
      have h := sendAfterWrite_processBatch writeOk sendOk a
      rwa [hpb] at h
    cases err with
    | some e =>
      intro l1 b l2 heq
      simp only [processInOrder, hpb] at heq
      exact hgood l1 b l2 heq
    | none =>
      intro l1 b l2 heq
      simp only [processInOrder, hpb] at heq
      exact sendAfterWrite_append hgood ih l1 b l2 heq

/-- C2: for every batch processed by `write_and_send_entries`, the
`write_entries` call for that batch completes successfully (its event
appears, and the write oracle holds) strictly before that batch is sent
on the downstream `entry_sender` channel: whenever the round's trace
splits around a `sendBatch b` event, a `writeEntries b` event lies
strictly earlier and `writeOk b = true`.  In particular a batch whose
write fails is never forwarded. -/
theorem C2_write_before_send (writeOk sendOk : Batch → Bool)
    (rt : RecvResult) (more : List Batch) (l1 : List Event) (b : Batch)
    (l2 : List Event)
    (h : (write_and_send_entries writeOk sendOk rt more).1 =
      l1 ++ Event.sendBatch b :: l2) :
    Event.writeEntries b ∈ l1 ∧ writeOk b = true := by
  cases rt with
  | timeout => simp [write_and_send_entries] at h
  | disconnected => simp [write_and_send_entries] at h
  | ok first =>
    exact sendAfterWrite_processInOrder writeOk sendOk
      (first :: more).reverse l1 b l2 h

/-- C2 (witness): the durability-before-forward theorem evaluated on a
concrete one-batch round. -/
theorem C2_write_before_send_witness :
    Event.writeEntries sampleB1 ∈
      [Event.insertVotes sampleB1.blockVotes,
        Event.writeEntries sampleB1] ∧
    (fun (_ : Batch) => true) sampleB1 = true :=
  C2_write_before_send (fun _ => true) (fun _ => true)
    (RecvResult.ok sampleB1) []
    [Event.insertVotes sampleB1.blockVotes, Event.writeEntries sampleB1]
    sampleB1 [] (by decide)

/-! ### C3: a mid-round failure abandons the unprocessed batches -/

theorem processInOrder_fail {writeOk sendOk : Batch → Bool}
    (pre : List Batch) (b : Batch) (post : List Batch) (e : WsError)
    (h1 : ∀ a ∈ pre, (processBatch writeOk sendOk a).2 = none)
    (h2 : (processBatch writeOk sendOk b).2 = some e) :
    processInOrder writeOk sendOk (pre ++ b :: post) =
      ((pre.map fun a => (processBatch writeOk sendOk a).1).flatten ++
        (processBatch writeOk sendOk b).1, some e) := by
  induction pre with
  | nil =>
    rcases hpb : processBatch writeOk sendOk b with ⟨evs, err⟩
    simp only [hpb] at h2
    subst h2
    simp [processInOrder, hpb]
  | cons a pre ih =>
    have ha := h1 a (by simp)
    rw [List.cons_append, processInOrder_cons_ok _ ha,
      ih (fun x hx => h1 x (by simp [hx]))]
    simp

/-- C3: if the ledger write or the downstream send fails for some batch
in a round, `write_and_send_entries` returns that error at once, and the
round's trace consists only of the events of the batches already handled
plus the failing batch's own events — it does not depend on `post`, the
batches still unprocessed in the pending queue, so none of their votes
are merged, none of their entries are written, and none are forwarded. -/
theorem C3_error_abandons_rest (writeOk sendOk : Batch → Bool)
    (first : Batch) (more : List Batch) (pre : List Batch) (b : Batch)
    (post : List Batch) (e : WsError)
    (horder : (first :: more).reverse = pre ++ b :: post)
    (h1 : ∀ a ∈ pre, (processBatch writeOk sendOk a).2 = none)
    (h2 : (processBatch writeOk sendOk b).2 = some e) :
    write_and_send_entries writeOk sendOk (RecvResult.ok first) more =
      ((pre.map fun a => (processBatch writeOk sendOk a).1).flatten ++
        (processBatch writeOk sendOk b).1, some e) := by
  simp only [write_and_send_entries, processPending]
  rw [horder]
  exact processInOrder_fail pre b post e h1 h2

/-- C3 (witness): a round draining `sampleB1` then `sampleB2` in which
the ledger write fails on the first batch processed (`sampleB2`, popped
from the tail) returns `writeFail` with only that batch's merge and
write-attempt events; the still-queued `sampleB1` is abandoned. -/
theorem C3_error_abandons_rest_witness :
    write_and_send_entries (fun b => b == sampleB1) (fun _ => true)
        (RecvResult.ok sampleB1) [sampleB2] =
      ((([] : List Batch).map fun a =>
          (processBatch (fun b => b == sampleB1) (fun _ => true) a).1).flatten
        ++ (processBatch (fun b => b == sampleB1) (fun _ => true)
            sampleB2).1,
        some WsError.writeFail) :=
  C3_error_abandons_rest (fun b => b == sampleB1) (fun _ => true)
    sampleB1 [sampleB2] [] sampleB2 [sampleB1] WsError.writeFail
    (by decide) (by intro a ha; simp at ha) (by decide)

/-! ### C6: empty-batch suppression -/

theorem writeEntries_mem_flatten (l : List Batch) (b : Batch) :
    Event.writeEntries b ∈ (l.map batchEvents).flatten ↔ b ∈ l := by
  induction l with
  | nil => simp
  | cons a rest ih =>
    by_cases he : a.isEmpty <;>
      simp [batchEvents, he, ih, eq_comm]

theorem sendBatch_mem_flatten (l : List Batch) (b : Batch) :
    Event.sendBatch b ∈ (l.map batchEvents).flatten ↔
      b ∈ l ∧ b ≠ [] := by
  induction l with
  | nil => simp
  | cons a rest ih =>
    by_cases he : a.isEmpty
    · have ha : a = [] := List.isEmpty_iff.mp he
      subst ha
      simp [batchEvents, ih]
      intro h1 h2
      exact absurd h2 h1
    · have ha : a ≠ [] := by
        intro hnil
        rw [hnil] at he
        exact he rfl
      simp [batchEvents, he, ih]
      constructor
      · rintro (rfl | ⟨hm, hne⟩)
        · exact ⟨Or.inl rfl, ha⟩
        · exact ⟨Or.inr hm, hne⟩
      · rintro ⟨rfl | hm, hne⟩
        · exact Or.inl rfl
        · exact Or.inr ⟨hm, hne⟩

theorem sendBatch_nil_not_mem_processBatch (wo so : Batch → Bool)
    (a : Batch) :
    Event.sendBatch [] ∉ (processBatch wo so a).1 := by
  by_cases hw : wo a
  · by_cases he : a.isEmpty
    · simp [processBatch, hw, he]
    · by_cases hs : so a
      · simp only [processBatch, hw, he, hs, if_true, Bool.false_eq_true,
          if_false, List.mem_cons, List.not_mem_nil, or_false]
        rintro (h | h | h)
        · cases h
        · cases h
        · injection h with hba
          rw [← hba] at he
          exact he rfl
      · simp [processBatch, hw, he, hs]
  · simp [processBatch, hw]

theorem sendBatch_nil_not_mem_round (wo so : Batch → Bool)
    (rt : RecvResult) (m : List Batch) :
    Event.sendBatch [] ∉ (write_and_send_entries wo so rt m).1 := by
  have hpio : ∀ l : List Batch,
      Event.sendBatch [] ∉ (processInOrder wo so l).1 := by
    intro l
    induction l with
    | nil => simp [processInOrder]
    | cons a rest ih =>
      rcases hpb : processBatch wo so a with ⟨evs, err⟩
      have ha := sendBatch_nil_not_mem_processBatch wo so a
      rw [hpb] at ha
      cases err with
      | some e =>
        simp only [processInOrder, hpb]
        exact ha
      | none =>
        simp only [processInOrder, hpb, List.mem_append]
        rintro (h | h)
        · exact ha h
        · exact ih h
  cases rt with
  | timeout => simp [write_and_send_entries]
  | disconnected => simp [write_and_send_entries]
  | ok first => exact hpio (first :: m).reverse

/-- C6: in a round with no write or send failure, a batch is forwarded
downstream exactly when it was drained and is non-empty; every drained
batch — an empty one included — still gets its ledger write; and in any
round whatsoever, failures included, the empty batch is never sent
downstream. -/
theorem C6_empty_batch_suppression (writeOk sendOk : Batch → Bool)
    (first : Batch) (more : List Batch) (b : Batch)
    (hok : ∀ x ∈ first :: more, writeOk x = true ∧ sendOk x = true) :
    (Event.sendBatch b ∈ (write_and_send_entries writeOk sendOk
        (RecvResult.ok first) more).1 ↔ b ∈ first :: more ∧ b ≠ []) ∧
    (b ∈ first :: more →
      Event.writeEntries b ∈ (write_and_send_entries writeOk sendOk
        (RecvResult.ok first) more).1) ∧
    (∀ (wo so : Batch → Bool) (rt : RecvResult) (m : List Batch),
      Event.sendBatch [] ∉ (write_and_send_entries wo so rt m).1) := by
  rw [write_and_send_entries_all_ok first more hok]
  refine ⟨?_, ?_, ?_⟩
  · rw [sendBatch_mem_flatten, List.mem_reverse]
  · intro hb
    exact (writeEntries_mem_flatten _ b).mpr (List.mem_reverse.mpr hb)
  · exact sendBatch_nil_not_mem_round

/-- C6 (witness): the suppression theorem evaluated on a round that
drains the empty batch and `sampleB1`, at the empty batch. -/
theorem C6_empty_batch_suppression_witness :
    (Event.sendBatch [] ∈ (write_and_send_entries (fun _ => true)
        (fun _ => true) (RecvResult.ok []) [sampleB1]).1 ↔
      ([] : Batch) ∈ [([] : Batch), sampleB1] ∧ ([] : Batch) ≠ []) ∧
    (([] : Batch) ∈ [([] : Batch), sampleB1] →
      Event.writeEntries [] ∈ (write_and_send_entries (fun _ => true)
        (fun _ => true) (RecvResult.ok []) [sampleB1]).1) ∧
    (∀ (wo so : Batch → Bool) (rt : RecvResult) (m : List Batch),
      Event.sendBatch [] ∉ (write_and_send_entries wo so rt m).1) :=
  C6_empty_batch_suppression (fun _ => true) (fun _ => true)
    [] [sampleB1] [] (fun _ _ => ⟨rfl, rfl⟩)

/-! ### C8: burst drain and coalescing -/

/-- C8: one call to `write_and_send_entries` processes the whole burst:
in a failure-free round every batch obtained by the blocking receive or
by the non-blocking drain is written to the ledger in that same round,
the round writes exactly as many batches as it drained, and — the
pending queue being a fresh local of the call — no batch outside the
drained ones ever appears among the round's ledger writes. -/
theorem C8_burst_drain (writeOk sendOk : Batch → Bool)
    (first : Batch) (more : List Batch)
    (hok : ∀ x ∈ first :: more, writeOk x = true ∧ sendOk x = true) :
    (∀ b ∈ first :: more, Event.writeEntries b ∈
      (write_and_send_entries writeOk sendOk
        (RecvResult.ok first) more).1) ∧
    (writesOf (write_and_send_entries writeOk sendOk
        (RecvResult.ok first) more).1).length = more.length + 1 ∧
    (∀ b, Event.writeEntries b ∈
        (write_and_send_entries writeOk sendOk
          (RecvResult.ok first) more).1 →
      b ∈ first :: more) := by
  rw [write_and_send_entries_all_ok first more hok]
  refine ⟨?_, ?_, ?_⟩
  · intro b hb
    exact (writeEntries_mem_flatten _ b).mpr (List.mem_reverse.mpr hb)
  · rw [writesOf_flatten]
    simp
  · intro b hb
    exact List.mem_reverse.mp ((writeEntries_mem_flatten _ b).mp hb)

/-- C8 (witness): the burst-drain theorem evaluated on the concrete
round that drains `sampleB1` and then `sampleB2`. -/
theorem C8_burst_drain_witness :
    (∀ b ∈ [sampleB1, sampleB2], Event.writeEntries b ∈
      (write_and_send_entries (fun _ => true) (fun _ => true)
        (RecvResult.ok sampleB1) [sampleB2]).1) ∧
    (writesOf (write_and_send_entries (fun _ => true) (fun _ => true)
        (RecvResult.ok sampleB1) [sampleB2]).1).length =
      [sampleB2].length + 1 ∧
    (∀ b, Event.writeEntries b ∈
        (write_and_send_entries (fun _ => true) (fun _ => true)
          (RecvResult.ok sampleB1) [sampleB2]).1 →
      b ∈ [sampleB1, sampleB2]) :=
  C8_burst_drain (fun _ => true) (fun _ => true) sampleB1 [sampleB2]
    (fun _ _ => ⟨rfl, rfl⟩)

/-! ### C10: one vote merge and one ledger write per batch -/

/-- C10: in a failure-free round, the trace of `write_and_send_entries`
is exactly, batch by batch over the drained queue (taken tail-first),
one `insert_votes` call with that batch's possibly-empty vote list
followed by one `write_entries` call, with a downstream send appended
exactly when the batch is non-empty: every drained batch — an empty one
included — gets exactly one merge and one write, in that order, and
only the forward is conditional. -/
theorem C10_merge_then_write_each_batch (writeOk sendOk : Batch → Bool)
    (first : Batch) (more : List Batch)
    (hok : ∀ x ∈ first :: more, writeOk x = true ∧ sendOk x = true) :
    (write_and_send_entries writeOk sendOk (RecvResult.ok first) more).1 =
      ((first :: more).reverse.map (fun b =>
        [Event.insertVotes b.blockVotes, Event.writeEntries b] ++
          (if b.isEmpty then [] else [Event.sendBatch b]))).flatten := by
  rw [write_and_send_entries_all_ok first more hok]
  rfl

/-- C10 (witness): the per-batch event-shape theorem evaluated on a
round draining the empty batch and `sampleB1`. -/
theorem C10_merge_then_write_each_batch_witness :
    (write_and_send_entries (fun _ => true) (fun _ => true)
        (RecvResult.ok []) [sampleB1]).1 =
      (([([] : Batch), sampleB1] : List Batch).reverse.map (fun b =>
        [Event.insertVotes b.blockVotes, Event.writeEntries b] ++
          (if b.isEmpty then [] else [Event.sendBatch b]))).flatten :=
  C10_merge_then_write_each_batch (fun _ => true) (fun _ => true)
    [] [sampleB1] (fun _ _ => ⟨rfl, rfl⟩)

/-! ### C4, C5, C9: the worker loop in WriteStage::new -/

/-- A concrete loop state with all counters at zero. -/
def sampleState : LoopState := ⟨0, 0, 0⟩

/-- A concrete iteration whose commit round fails its ledger write. -/
def inpWriteFail : IterInput :=
  ⟨fun _ => false, fun _ => true, RecvResult.ok sampleB1, [], true⟩

/-- A concrete iteration whose blocking receive reports `Disconnected`. -/
def inpDisconnect : IterInput :=
  ⟨fun _ => true, fun _ => true, RecvResult.disconnected, [], true⟩

/-- A concrete iteration whose commit round succeeds but whose
`send_leader_vote` call fails. -/
def inpVoteFail : IterInput :=
  ⟨fun _ => true, fun _ => true, RecvResult.ok sampleB1, [], false⟩

/-- C4: the worker loop breaks exactly when `write_and_send_entries`
returns the `Disconnected` receive error; a `Timeout` leaves the error
counter untouched and the loop continues; a write or send failure bumps
the `write_stage-write_and_send_entries-error` counter and the loop
continues; a successful round also continues with no error counted. -/
theorem C4_loop_termination (s : LoopState) (inp : IterInput) :
    ((loopIter s inp).2 = true ↔
      (write_and_send_entries inp.writeOk inp.sendOk
        inp.rt inp.more).2 = some WsError.recvDisconnected) ∧
    ((write_and_send_entries inp.writeOk inp.sendOk
        inp.rt inp.more).2 = some WsError.recvTimeout →
      (loopIter s inp).1.writeErrCount = s.writeErrCount ∧
        (loopIter s inp).2 = false) ∧
    (∀ e, (e = WsError.writeFail ∨ e = WsError.sendFail) →
      (write_and_send_entries inp.writeOk inp.sendOk
          inp.rt inp.more).2 = some e →
      (loopIter s inp).1.writeErrCount = s.writeErrCount + 1 ∧
        (loopIter s inp).2 = false) ∧
    ((write_and_send_entries inp.writeOk inp.sendOk
        inp.rt inp.more).2 = none →
      (loopIter s inp).1.writeErrCount = s.writeErrCount ∧
        (loopIter s inp).2 = false) := by
  rcases herr : (write_and_send_entries inp.writeOk inp.sendOk
      inp.rt inp.more).2 with _ | e
  · simp [loopIter, herr, voteStep]
  · cases e <;> simp [loopIter, herr, voteStep]

/-- C4 (witness): on an iteration whose commit round fails its ledger
write, the loop continues and counts one error. -/
theorem C4_loop_termination_witness :
    (loopIter sampleState inpWriteFail).1.writeErrCount =
      sampleState.writeErrCount + 1 ∧
    (loopIter sampleState inpWriteFail).2 = false :=
  (C4_loop_termination sampleState inpWriteFail).2.2.1
    WsError.writeFail (Or.inl rfl) (by decide)

/-- C5 (counterexample): it is not the case that `send_leader_vote` is
invoked in every iteration regardless of the error
`write_and_send_entries` returns: on the iteration in which the receive
reports `Disconnected`, the loop breaks before `send_leader_vote`, so
the call count does not grow. -/
theorem C5_counterexample :
    ¬ ((loopIter sampleState inpDisconnect).1.voteCalls =
      sampleState.voteCalls + 1) := by
  decide

/-- C5 (amended): in every iteration of the worker loop in which
`write_and_send_entries` does not return the `Disconnected` error —
whether it succeeds, times out, or fails its write or send —
`send_leader_vote` is invoked exactly once after the commit round; on
`Disconnected` the loop breaks without invoking it. -/
theorem C5_vote_once_per_iteration (s : LoopState) (inp : IterInput) :
    ((write_and_send_entries inp.writeOk inp.sendOk
        inp.rt inp.more).2 ≠ some WsError.recvDisconnected →
      (loopIter s inp).1.voteCalls = s.voteCalls + 1) ∧
    ((write_and_send_entries inp.writeOk inp.sendOk
        inp.rt inp.more).2 = some WsError.recvDisconnected →
      (loopIter s inp).1.voteCalls = s.voteCalls) := by
  rcases herr : (write_and_send_entries inp.writeOk inp.sendOk
      inp.rt inp.more).2 with _ | e
  · simp [loopIter, herr, voteStep]
  · cases e <;> simp [loopIter, herr, voteStep]

/-- C5 (witness): the amended theorem evaluated on an iteration whose
commit round fails its ledger write: the vote trigger still runs once. -/
theorem C5_vote_once_per_iteration_witness :
    (loopIter sampleState inpWriteFail).1.voteCalls =
      sampleState.voteCalls + 1 :=
  (C5_vote_once_per_iteration sampleState inpWriteFail).1 (by decide)

/-- C9: a `send_leader_vote` failure is never propagated and never
terminates the loop: on any iteration that reaches the vote trigger
(that is, whose commit round does not report `Disconnected`), a failed
vote bumps the `write_stage-leader_vote-error` counter and the loop
continues to its next iteration. -/
theorem C9_vote_failure_nonfatal (s : LoopState) (inp : IterInput)
    (hv : inp.voteOk = false)
    (hnd : (write_and_send_entries inp.writeOk inp.sendOk
      inp.rt inp.more).2 ≠ some WsError.recvDisconnected) :
    (loopIter s inp).2 = false ∧
    (loopIter s inp).1.voteErrCount = s.voteErrCount + 1 := by
  rcases herr : (write_and_send_entries inp.writeOk inp.sendOk
      inp.rt inp.more).2 with _ | e
  · simp [loopIter, herr, voteStep, hv]
  · cases e
    · simp [loopIter, herr, voteStep, hv]
    · exact absurd herr hnd
    · simp [loopIter, herr, voteStep, hv]
    · simp [loopIter, herr, voteStep, hv]

/-- C9 (witness): the non-fatal vote-failure theorem evaluated on an
iteration with a successful commit round and a failing vote. -/
theorem C9_vote_failure_nonfatal_witness :
    (loopIter sampleState inpVoteFail).2 = false ∧
    (loopIter sampleState inpVoteFail).1.voteErrCount =
      sampleState.voteErrCount + 1 :=
  C9_vote_failure_nonfatal sampleState inpVoteFail rfl (by decide)
